import Mathlib

/-!
Verification of the particle filter in `src/particle_filter.cpp`
(Monte Carlo localization: init / prediction / data association /
weight update / resampling, plus diagnostic accessors).

Modelling conventions:
* C++ `double` values are modelled as exact rationals `ℚ`; the transcendental
  functions (`sin`, `cos`, `sqrt`, `exp`) and the constant `π` are abstract
  parameters of the embedding, since the claims only concern which arguments
  they receive, never their numeric values.
* Draws from `std::normal_distribution`, `std::uniform_int_distribution`,
  `std::uniform_real_distribution` and the shared `std::default_random_engine`
  are modelled as explicit input streams: the embedding receives the values
  that the distributions produced.
* The sentinel `std::numeric_limits<double>::max()` seeding the running
  minimum searches is modelled as `Option ℚ`, with `none` for the untouched
  sentinel (every finite distance compares strictly below it).
* In-place mutation of `std::vector` becomes functional update of `List`;
  the unbounded `while` loop inside `resample` is given explicit fuel, and
  running out of fuel for every fuel value is exactly non-termination.
* C++ strings are modelled as `List Char`.
-/

/-- One pose hypothesis (`struct Particle` in `particle_filter.h`). -/
structure Particle where
  id : Int
  x : ℚ
  y : ℚ
  theta : ℚ
  weight : ℚ
  associations : List Int
  sense_x : List ℚ
  sense_y : List ℚ
  deriving DecidableEq, Inhabited

/-- A landmark observation (`struct LandmarkObs` in `helper_functions.h`):
`id` is the matched landmark identity (−1 when unmatched), `x`, `y` a point. -/
structure LandmarkObs where
  id : Int
  x : ℚ
  y : ℚ
  deriving DecidableEq, Inhabited

/-- One map landmark (`Map::single_landmark_s`): id and (x, y) position. -/
structure SingleLandmark where
  id_i : Int
  x_f : ℚ
  y_f : ℚ
  deriving DecidableEq, Inhabited

/-- The landmark map (`class Map`): a sequence of landmarks. -/
structure Map where
  landmark_list : List SingleLandmark
  deriving DecidableEq, Inhabited

/-- The filter state (`class ParticleFilter`): particle count, population and
the one-shot guard. The source spells the guard `is_initialized`. -/
structure ParticleFilter where
  num_particles : Nat
  particles : List Particle
  is_init : Bool
  deriving DecidableEq, Inhabited

/-- Sentinel comparison `distance < minDist`, where `minDist` starts at
`std::numeric_limits<double>::max()`: `none` models the untouched sentinel,
which every finite distance compares strictly below. -/
def ltOpt (d : ℚ) : Option ℚ → Bool
  | none => true
  | some m => decide (d < m)

/-- The running strict-minimum search shared by `dataAssociation` and the
association loop inside `updateWeights`: the state is the current
`(minDist, payload)` pair, replaced whenever `distance < minDist`. -/
def runMin (dfun : α → ℚ) (out : α → β) (l : List α) (s : Option ℚ × β) :
    Option ℚ × β :=
  l.foldl (fun st a => if ltOpt (dfun a) st.1 then (some (dfun a), out a) else st) s

/-- First-encountered minimiser of `dfun` over a list: on an exact tie the
earlier element wins. -/
def firstArgmin (dfun : α → ℚ) : List α → Option α
  | [] => none
  | a :: rest =>
    match firstArgmin dfun rest with
    | none => some a
    | some b => if dfun a ≤ dfun b then some a else some b

/-- `p` occurs in `l`, every element strictly before that occurrence has a
strictly larger `dfun`-value, and no element of `l` has a smaller one:
the first-encountered minimiser, stated positionally. -/
def FirstMinAt (dfun : α → ℚ) (l : List α) (p : α) : Prop :=
  ∃ pre post, l = pre ++ p :: post ∧ (∀ q ∈ pre, dfun p < dfun q) ∧
    ∀ q ∈ l, dfun p ≤ dfun q

/-- Squared Euclidean distance between an observation and a predicted
landmark, exactly as the source computes it:
`xDist*xDist + yDist*yDist` with `xDist = obs.x - pred.x` etc. -/
def sqDist (o p : LandmarkObs) : ℚ :=
  (o.x - p.x) * (o.x - p.x) + (o.y - p.y) * (o.y - p.y)

/-- The body of `ParticleFilter::dataAssociation` for one observation.
The source assigns `observations[j].id = mapId` on every iteration of the
inner `k` loop; the net effect is the final `mapId` when `predicted` is
nonempty, and no assignment at all when `predicted` is empty. -/
def dataAssocOne (predicted : List LandmarkObs) (obs : LandmarkObs) :
    LandmarkObs :=
  match predicted with
  | [] => obs
  | _ :: _ =>
    { obs with
      id := (runMin (fun p => sqDist obs p) (fun p => p.id) predicted
        ((none : Option ℚ), (-1 : Int))).2 }

/-- `ParticleFilter::dataAssociation`: nearest-neighbour matching of each
observation against the predicted landmarks (`minDist` starts at the
`DBL_MAX` sentinel, `mapId` at `-1`). -/
def ParticleFilter.dataAssociation (predicted observations : List LandmarkObs) :
    List LandmarkObs :=
  observations.map (dataAssocOne predicted)

/-- Modelled from the spec: `dist` from `helper_functions.h` (that header is
not under `src/`), the Euclidean distance between two points used for the
in-range test ("within `sensor_range` of the particle's position (Euclidean
distance, inclusive boundary)"); the square root is the abstract parameter
`qsqrt`. -/
def dist (qsqrt : ℚ → ℚ) (x1 y1 x2 y2 : ℚ) : ℚ :=
  qsqrt ((x2 - x1) * (x2 - x1) + (y2 - y1) * (y2 - y1))

/-- Modelled from the spec: `multiv_prob` from `helper_functions.h` (that
header is not under `src/`): "a bivariate (uncorrelated) Gaussian likelihood
of the transformed observation given that landmark's position as the mean and
`std_landmark` as the per-axis standard deviations"; `qpi` and `qexp` are the
abstract π constant and exponential function. -/
def multiv_prob (qpi : ℚ) (qexp : ℚ → ℚ)
    (sig_x sig_y x_obs y_obs mu_x mu_y : ℚ) : ℚ :=
  (1 / (2 * qpi * sig_x * sig_y)) *
    qexp (-((x_obs - mu_x) * (x_obs - mu_x) / (2 * sig_x * sig_x) +
            (y_obs - mu_y) * (y_obs - mu_y) / (2 * sig_y * sig_y)))

/-- The in-place update `for (i = 0; i < n; i++) v[i] = f(i, v[i])` on a
vector, starting from position `k`: elements at positions `≥ n` are left
untouched, exactly as the source loops only up to `num_particles`. -/
def mapIdxBelow (n : Nat) (f : Nat → α → α) : Nat → List α → List α
  | _, [] => []
  | i, a :: rest => (if i < n then f i a else a) :: mapIdxBelow n f (i + 1) rest

/-- The loop in `updateWeights` that collects `predictions`: push every map
landmark whose `dist` to the particle is `<= sensor_range`. -/
def inRangeLandmarks (qsqrt : ℚ → ℚ) (sensor_range px py : ℚ)
    (landmarks : List SingleLandmark) : List LandmarkObs :=
  landmarks.foldl (fun acc lm =>
    if dist qsqrt px py lm.x_f lm.y_f ≤ sensor_range then
      acc ++ [{ id := lm.id_i, x := lm.x_f, y := lm.y_f }]
    else acc) []

/-- The inner association loop of `updateWeights`: running strict minimum of
the squared distance over `predictions`, with state `(minDist, mapId, p_x,
p_y)` initialised to the `DBL_MAX` sentinel, `-1`, `0`, `0`. (The dead store
`obs.id = mapId` of the source is dropped: `obs.id` is never read.) -/
def nearestPred (preds : List LandmarkObs) (tx ty : ℚ) :
    Option ℚ × (Int × ℚ × ℚ) :=
  runMin (fun p => (tx - p.x) * (tx - p.x) + (ty - p.y) * (ty - p.y))
    (fun p => (p.id, p.x, p.y)) preds (none, (-1, 0, 0))

/-- The body of the per-particle loop of `ParticleFilter::updateWeights`:
build the in-range predictions, reset the weight to `1.0`, then for each
observation transform it to map coordinates with the particle pose, find the
nearest prediction and multiply the weight by `multiv_prob`. -/
def updateWeightsOne (sinq cosq qsqrt : ℚ → ℚ) (qpi : ℚ) (qexp : ℚ → ℚ)
    (sensor_range : ℚ) (std_landmark : Fin 2 → ℚ)
    (observations : List LandmarkObs) (landmarks : List SingleLandmark)
    (p : Particle) : Particle :=
  let particleX := p.x
  let particleY := p.y
  let theta := p.theta
  let predictions := inRangeLandmarks qsqrt sensor_range particleX particleY landmarks
  { p with
    weight := observations.foldl (fun w o =>
      let obsx := particleX + cosq theta * o.x - sinq theta * o.y
      let obsy := particleY + sinq theta * o.x + cosq theta * o.y
      let st := nearestPred predictions obsx obsy
      w * multiv_prob qpi qexp (std_landmark 0) (std_landmark 1)
        obsx obsy st.2.2.1 st.2.2.2) 1 }

/-- `ParticleFilter::updateWeights`, updating `particles[i]` for
`i < num_particles`. -/
def ParticleFilter.updateWeights (pf : ParticleFilter)
    (sinq cosq qsqrt : ℚ → ℚ) (qpi : ℚ) (qexp : ℚ → ℚ)
    (sensor_range : ℚ) (std_landmark : Fin 2 → ℚ)
    (observations : List LandmarkObs) (map_landmarks : Map) : ParticleFilter :=
  { pf with
    particles := mapIdxBelow pf.num_particles
      (fun _ p => updateWeightsOne sinq cosq qsqrt qpi qexp sensor_range
        std_landmark observations map_landmarks.landmark_list p)
      0 pf.particles }

/-- The spec's candidate set, in its words: "the map landmarks within
`sensor_range` of the particle's position (Euclidean distance, inclusive
boundary)". -/
def specCandidates (qsqrt : ℚ → ℚ) (sensor_range px py : ℚ)
    (landmarks : List SingleLandmark) : List LandmarkObs :=
  (landmarks.filter
      (fun lm => decide (dist qsqrt px py lm.x_f lm.y_f ≤ sensor_range))).map
    (fun lm => { id := lm.id_i, x := lm.x_f, y := lm.y_f })

/-- The spec's weight, in its words: the weight is reset to `1.0`, then the
product over the observations in their given order of the Gaussian
likelihood of each rotated-then-translated observation, with the
first-encountered nearest candidate as the mean (the origin when there is no
candidate). -/
def specWeight (sinq cosq : ℚ → ℚ) (qpi : ℚ) (qexp : ℚ → ℚ)
    (std_landmark : Fin 2 → ℚ) (observations preds : List LandmarkObs)
    (px py theta : ℚ) : ℚ :=
  observations.foldl (fun w o =>
    let tx := px + cosq theta * o.x - sinq theta * o.y
    let ty := py + sinq theta * o.x + cosq theta * o.y
    let mu :=
      match firstArgmin
        (fun q => (tx - q.x) * (tx - q.x) + (ty - q.y) * (ty - q.y)) preds with
      | none => ((0 : ℚ), (0 : ℚ))
      | some q => (q.x, q.y)
    w * multiv_prob qpi qexp (std_landmark 0) (std_landmark 1)
      tx ty mu.1 mu.2) 1

/-- The motion-model update of `ParticleFilter::prediction` for one particle,
before noise injection: the CTRV closed form when `fabs(yaw_rate) > 0.00001`,
the straight-line form otherwise. -/
def motionStep (sinq cosq : ℚ → ℚ) (delta_t velocity yaw_rate : ℚ)
    (p : Particle) : Particle :=
  if |yaw_rate| > 1/100000 then
    { p with
      x := p.x + (velocity / yaw_rate) *
        (sinq (p.theta + yaw_rate * delta_t) - sinq p.theta),
      y := p.y + (velocity / yaw_rate) *
        (cosq p.theta - cosq (p.theta + yaw_rate * delta_t)),
      theta := p.theta + yaw_rate * delta_t }
  else
    { p with
      x := p.x + velocity * delta_t * cosq p.theta,
      y := p.y + velocity * delta_t * sinq p.theta }

/-- One particle's full `prediction` body: the motion model followed by the
additive noise draws (`dist_x(gen)`, `dist_y(gen)`, `dist_theta(gen)`). -/
def predictOne (sinq cosq : ℚ → ℚ) (delta_t velocity yaw_rate : ℚ)
    (noise : ℚ × ℚ × ℚ) (p : Particle) : Particle :=
  let p1 := motionStep sinq cosq delta_t velocity yaw_rate p
  { p1 with
    x := p1.x + noise.1, y := p1.y + noise.2.1, theta := p1.theta + noise.2.2 }

/-- `ParticleFilter::prediction`: the motion model plus noise for
`particles[i]`, `i < num_particles`. `std_pos` parameterises the noise
distributions, whose drawn values are the `noise` stream. -/
def ParticleFilter.prediction (pf : ParticleFilter) (sinq cosq : ℚ → ℚ)
    (delta_t : ℚ) (std_pos : Fin 3 → ℚ) (velocity yaw_rate : ℚ)
    (noise : Nat → ℚ × ℚ × ℚ) : ParticleFilter :=
  { pf with
    particles := mapIdxBelow pf.num_particles
      (fun i p => predictOne sinq cosq delta_t velocity yaw_rate (noise i) p)
      0 pf.particles }

/-- `ParticleFilter::init`: a no-op when already initialized; otherwise set
`num_particles` to 100 and push 100 particles with sequential ids, weight
1.0 and poses drawn from the Gaussians centred at (x, y, theta) with
standard deviations `std` — the `draws` stream holds the values the
distributions `dist_x`, `dist_y`, `dist_theta` produced. -/
def ParticleFilter.init (pf : ParticleFilter) (x y theta : ℚ)
    (std : Fin 3 → ℚ) (draws : Nat → ℚ × ℚ × ℚ) : ParticleFilter :=
  if pf.is_init then pf
  else
    { num_particles := 100,
      particles := pf.particles ++ (List.range 100).map (fun i =>
        { id := i, x := (draws i).1, y := (draws i).2.1,
          theta := (draws i).2.2, weight := 1,
          associations := [], sense_x := [], sense_y := [] }),
      is_init := true }

/-- Modelled from the spec: the freshly constructed filter of
`particle_filter.h` (that header is not under `src/`): "the filter instance
is constructed once, `init` seeds the population" — the initialized flag
starts false and the population starts empty. -/
def ParticleFilter.fresh : ParticleFilter := ⟨0, [], false⟩

/-- `std::numeric_limits<double>::min()`, the smallest positive normal
double, 2^(−1022): the seed of the `maxWeight` search in `resample`. -/
def dblMin : ℚ := 1 / 2 ^ 1022

/-- The inner `while (beta > w[index])` loop of `resample`, with explicit
fuel: subtract the indexed weight from `beta` and step the index forward
modulo `n` while the condition holds. The C++ loop is unbounded, so a
result of `none` at every fuel value is exactly non-termination of the
source. -/
def wheelWhile (w : List ℚ) (n : Nat) : Nat → ℚ → Nat → Option (ℚ × Nat)
  | 0, beta, index =>
    if beta > w.getD index 0 then none else some (beta, index)
  | fuel + 1, beta, index =>
    if beta > w.getD index 0 then
      wheelWhile w n fuel (beta - w.getD index 0) ((index + 1) % n)
    else some (beta, index)

/-- The outer `for` loop of `resample`: one `dist_w` draw per output slot,
`beta += 2*draw`, spin the wheel, then push `particles[index]`. -/
def resampleLoop (particles : List Particle) (w : List ℚ) (n : Nat)
    (fuel : Nat) :
    List ℚ → ℚ → Nat → List Particle → Option (ℚ × Nat × List Particle)
  | [], beta, index, acc => some (beta, index, acc)
  | d :: rest, beta, index, acc =>
    match wheelWhile w n fuel (beta + 2 * d) index with
    | none => none
    | some (beta', index') =>
      resampleLoop particles w n fuel rest beta' index'
        (acc ++ [particles.getD index' default])

/-- `ParticleFilter::resample` (stochastic resampling wheel): collect the
weights and `maxWeight` (seeded with `DBL_MIN`), then run the wheel from the
`dist_i` draw `index0` with `beta = 0`. `maxWeight` only parameterises
`dist_w`, whose drawn values are the `draws` input (one per output slot,
each in `[0, maxWeight]`). -/
def ParticleFilter.resample (pf : ParticleFilter) (index0 : Nat)
    (draws : List ℚ) (fuel : Nat) : Option ParticleFilter :=
  let w := (List.range pf.num_particles).map
    (fun i => (pf.particles.getD i default).weight)
  let maxWeight := (List.range pf.num_particles).foldl
    (fun m i => if m < (pf.particles.getD i default).weight
      then (pf.particles.getD i default).weight else m) dblMin
  match resampleLoop pf.particles w pf.num_particles fuel draws 0 index0 [] with
  | none => none
  | some (_, _, ps) => some { pf with particles := ps }

/-- The shared rendering of `getAssociations` / `getSenseCoord`: stream each
element followed by a single space (`ostream_iterator(ss, " ")`), then
`s.substr(0, s.length()-1)` — drop the final character. The element-to-text
conversion of the stream insertion is the abstract parameter `toText`. -/
def renderSeq (toText : α → List Char) (v : List α) : List Char :=
  (List.join (v.map (fun x => toText x ++ [' ']))).dropLast

/-- `ParticleFilter::getAssociations`. -/
def ParticleFilter.getAssociations (toTextInt : Int → List Char)
    (best : Particle) : List Char :=
  renderSeq toTextInt best.associations

/-- `ParticleFilter::getSenseCoord`: `sense_x` when `coord == "X"`, else
`sense_y` (the source streams doubles through `ostream_iterator<float>`;
that formatting is inside `toTextQ`). -/
def ParticleFilter.getSenseCoord (toTextQ : ℚ → List Char) (best : Particle)
    (coord : List Char) : List Char :=
  renderSeq toTextQ (if coord = ['X'] then best.sense_x else best.sense_y)

/-- `ParticleFilter::SetAssociations`: attach the association ids and their
world coordinates to the particle. -/
def ParticleFilter.SetAssociations (particle : Particle)
    (associations : List Int) (sense_x : List ℚ) (sense_y : List ℚ) :
    Particle :=
  { particle with
    associations := associations
    sense_x := sense_x
    sense_y := sense_y }

/-- The spec's rendering, in its words: the elements as text "separated by
single spaces" with the "trailing separator trimmed". -/
def spaceSeparated (toText : α → List Char) : List α → List Char
  | [] => []
  | [x] => toText x
  | x :: rest => toText x ++ ' ' :: spaceSeparated toText rest

lemma runMin_nil (dfun : α → ℚ) (out : α → β) (s : Option ℚ × β) :
    runMin dfun out [] s = s := rfl

lemma runMin_cons (dfun : α → ℚ) (out : α → β) (a : α) (l : List α)
    (s : Option ℚ × β) :
    runMin dfun out (a :: l) s =
      runMin dfun out l
        (if ltOpt (dfun a) s.1 then (some (dfun a), out a) else s) := rfl

lemma firstArgmin_cons (dfun : α → ℚ) (a : α) (rest : List α) :
    firstArgmin dfun (a :: rest) =
      match firstArgmin dfun rest with
      | none => some a
      | some b => if dfun a ≤ dfun b then some a else some b := rfl

lemma firstArgmin_eq_none (dfun : α → ℚ) (l : List α)
    (h : firstArgmin dfun l = none) : l = [] := by
  cases l with
  | nil => rfl
  | cons a rest =>
    rw [firstArgmin_cons] at h
    cases hr : firstArgmin dfun rest with
    | none => rw [hr] at h; cases h
    | some b => rw [hr] at h; dsimp at h; split at h <;> cases h

/-- Running the strict-minimum fold from a concrete current minimum `m`:
the result improves on `(m, b)` exactly when the list's first-encountered
minimiser beats `m` strictly. -/
lemma runMin_some (dfun : α → ℚ) (out : α → β) (l : List α) (m : ℚ) (b : β) :
    runMin dfun out l (some m, b) =
      match firstArgmin dfun l with
      | none => (some m, b)
      | some r => if dfun r < m then (some (dfun r), out r) else (some m, b) := by
  induction l generalizing m b with
  | nil => rfl
  | cons a rest ih =>
    rw [runMin_cons, firstArgmin_cons]
    by_cases hc : dfun a < m
    · have hlt : ltOpt (dfun a) (some m, b).1 = true := by
        simp [ltOpt, hc]
      rw [if_pos hlt, ih]
      cases hr : firstArgmin dfun rest with
      | none => simp [hc]
      | some r =>
        dsimp only
        by_cases har : dfun a ≤ dfun r
        · rw [if_pos har]
          have : ¬ dfun r < dfun a := not_lt.mpr har
          simp [this, hc]
        · rw [if_neg har]
          have hra : dfun r < dfun a := lt_of_not_le har
          have hrm : dfun r < m := lt_trans hra hc
          simp [hra, hrm]
    · have hlt : ltOpt (dfun a) (some m, b).1 = false := by
        simp [ltOpt, hc]
      rw [hlt]
      simp only [Bool.false_eq_true, if_false]
      rw [ih]
      cases hr : firstArgmin dfun rest with
      | none => simp [hc]
      | some r =>
        dsimp only
        by_cases har : dfun a ≤ dfun r
        · rw [if_pos har]
          have hma : m ≤ dfun a := not_lt.mp hc
          have : ¬ dfun r < m := not_lt.mpr (le_trans hma har)
          simp [this, hc]
        · rw [if_neg har]

/-- Running the strict-minimum fold from the `DBL_MAX` sentinel computes the
first-encountered minimiser's distance and payload. -/
lemma runMin_sentinel (dfun : α → ℚ) (out : α → β) (l : List α) (b0 : β) :
    runMin dfun out l (none, b0) =
      match firstArgmin dfun l with
      | none => (none, b0)
      | some r => (some (dfun r), out r) := by
  cases l with
  | nil => rfl
  | cons a rest =>
    rw [runMin_cons]
    have : ltOpt (dfun a) ((none : Option ℚ), b0).1 = true := rfl
    rw [if_pos this, runMin_some, firstArgmin_cons]
    cases hr : firstArgmin dfun rest with
    | none => rfl
    | some r =>
      dsimp only
      by_cases har : dfun a ≤ dfun r
      · rw [if_pos har]
        have : ¬ dfun r < dfun a := not_lt.mpr har
        simp [this]
      · rw [if_neg har]
        have hra : dfun r < dfun a := lt_of_not_le har
        simp [hra]

lemma firstArgmin_min (dfun : α → ℚ) (l : List α) (r : α)
    (h : firstArgmin dfun l = some r) : ∀ q ∈ l, dfun r ≤ dfun q := by
  induction l generalizing r with
  | nil => cases h
  | cons a rest ih =>
    rw [firstArgmin_cons] at h
    cases hr : firstArgmin dfun rest with
    | none =>
      have hnil := firstArgmin_eq_none dfun rest hr
      subst hnil
      rw [hr] at h
      cases h
      intro q hq
      rcases List.mem_singleton.mp hq with rfl
      exact le_refl _
    | some b =>
      rw [hr] at h
      dsimp only at h
      by_cases hab : dfun a ≤ dfun b
      · rw [if_pos hab] at h
        cases h
        intro q hq
        rcases List.mem_cons.mp hq with rfl | hq
        · exact le_refl _
        · exact le_trans hab (ih b hr q hq)
      · rw [if_neg hab] at h
        cases h
        intro q hq
        rcases List.mem_cons.mp hq with rfl | hq
        · exact le_of_lt (lt_of_not_le hab)
        · exact ih r hr q hq

/-- `firstArgmin` really is the first-encountered minimiser. -/
lemma firstArgmin_firstMinAt (dfun : α → ℚ) (l : List α) (r : α)
    (h : firstArgmin dfun l = some r) : FirstMinAt dfun l r := by
  induction l generalizing r with
  | nil => cases h
  | cons a rest ih =>
    have hminall := firstArgmin_min dfun (a :: rest) r h
    rw [firstArgmin_cons] at h
    cases hr : firstArgmin dfun rest with
    | none =>
      have hnil := firstArgmin_eq_none dfun rest hr
      subst hnil
      rw [hr] at h
      cases h
      refine ⟨[], [], rfl, ?_, hminall⟩
      intro q hq
      cases hq
    | some b =>
      rw [hr] at h
      dsimp only at h
      by_cases hab : dfun a ≤ dfun b
      · rw [if_pos hab] at h
        cases h
        refine ⟨[], rest, rfl, ?_, hminall⟩
        intro q hq
        cases hq
      · rw [if_neg hab] at h
        cases h
        obtain ⟨pre, post, hdec, hpre, _⟩ := ih r hr
        refine ⟨a :: pre, post, by rw [hdec, List.cons_append], ?_, hminall⟩
        intro q hq
        rcases List.mem_cons.mp hq with rfl | hq
        · have hra : dfun r < dfun q := lt_of_not_le hab
          exact hra
        · exact hpre q hq

lemma getD_map_of_lt (f : α → β) (l : List α) (j : Nat) (h : j < l.length)
    (d : α) (d' : β) : (l.map f).getD j d' = f (l.getD j d) := by
  rw [List.getD_eq_getElem _ _ (by simpa using h), List.getD_eq_getElem _ _ h,
    List.getElem_map]

lemma dataAssocOne_of_ne_nil (predicted : List LandmarkObs)
    (obs : LandmarkObs) (h : predicted ≠ []) :
    ∃ p, FirstMinAt (sqDist obs) predicted p ∧
      dataAssocOne predicted obs = { obs with id := p.id } := by
  cases predicted with
  | nil => exact absurd rfl h
  | cons a rest =>
    cases hfa : firstArgmin (sqDist obs) (a :: rest) with
    | none => exact absurd (firstArgmin_eq_none _ _ hfa) (List.cons_ne_nil a rest)
    | some r =>
      refine ⟨r, firstArgmin_firstMinAt _ _ _ hfa, ?_⟩
      show ({ obs with id := _ } : LandmarkObs) = _
      rw [runMin_sentinel, hfa]

/-- Claim C6: for every non-empty `predicted` sequence, `dataAssociation`
sets each observation's `id`, in place, to the id of the predicted landmark
minimising squared Euclidean distance to that observation, ties broken by
the first-encountered (lowest-index) minimum; for empty `predicted`, every
observation is left unchanged (its id keeps its prior value). -/
theorem dataAssociation_nearest_first (predicted observations : List LandmarkObs) :
    (predicted = [] →
      ParticleFilter.dataAssociation predicted observations = observations) ∧
    (predicted ≠ [] → ∀ j, j < observations.length →
      ∃ p, FirstMinAt (sqDist (observations.getD j default)) predicted p ∧
        (ParticleFilter.dataAssociation predicted observations).getD j default =
          { observations.getD j default with id := p.id }) := by
  constructor
  · intro h
    subst h
    show List.map (dataAssocOne []) observations = observations
    induction observations with
    | nil => rfl
    | cons o rest ih => rw [List.map_cons, ih]; rfl
  · intro hne j hj
    obtain ⟨p, hp, heq⟩ :=
      dataAssocOne_of_ne_nil predicted (observations.getD j default) hne
    refine ⟨p, hp, ?_⟩
    rw [ParticleFilter.dataAssociation,
      getD_map_of_lt (dataAssocOne predicted) observations j hj default default,
      heq]

/-- Instantiation of C6 on the spec's worked example: predicted landmarks
(5,5,id=1) and (2,2,id=2), observation (2.1,1.9) associates to id 2, and
the empty predicted list leaves the observation untouched. -/
theorem dataAssociation_nearest_first_witness :
    ParticleFilter.dataAssociation []
        [({ id := -1, x := 21/10, y := 19/10 } : LandmarkObs)] =
      [({ id := -1, x := 21/10, y := 19/10 } : LandmarkObs)] ∧
    (ParticleFilter.dataAssociation
        [({ id := 1, x := 5, y := 5 } : LandmarkObs),
         ({ id := 2, x := 2, y := 2 } : LandmarkObs)]
        [({ id := -1, x := 21/10, y := 19/10 } : LandmarkObs)]).getD 0 default =
      ({ id := 2, x := 21/10, y := 19/10 } : LandmarkObs) := by
  constructor
  · exact (dataAssociation_nearest_first [] _).1 rfl
  · obtain ⟨p, hp, heq⟩ :=
      (dataAssociation_nearest_first
        [({ id := 1, x := 5, y := 5 } : LandmarkObs),
         ({ id := 2, x := 2, y := 2 } : LandmarkObs)]
        [({ id := -1, x := 21/10, y := 19/10 } : LandmarkObs)]).2
        (List.cons_ne_nil _ _) 0 (by decide)
    obtain ⟨pre, post, hdec, -, hmin⟩ := hp
    have hpmem : p ∈
        [({ id := 1, x := 5, y := 5 } : LandmarkObs),
         ({ id := 2, x := 2, y := 2 } : LandmarkObs)] := by
      rw [hdec]
      exact List.mem_append.mpr (Or.inr (List.mem_cons_self _ _))
    have hid : p = ({ id := 2, x := 2, y := 2 } : LandmarkObs) := by
      rcases List.mem_cons.mp hpmem with rfl | h2
      · exact absurd (hmin ({ id := 2, x := 2, y := 2 } : LandmarkObs)
          (by with_unfolding_all decide)) (by with_unfolding_all decide)
      · exact List.mem_singleton.mp h2
    rw [heq, hid]; rfl

lemma mapIdxBelow_length (n : Nat) (f : Nat → α → α) (k : Nat) (l : List α) :
    (mapIdxBelow n f k l).length = l.length := by
  induction l generalizing k with
  | nil => rfl
  | cons a rest ih => simp [mapIdxBelow, ih]

lemma mapIdxBelow_getD (n : Nat) (f : Nat → α → α) (k : Nat) (l : List α)
    (i : Nat) (h : i < l.length) (d : α) :
    (mapIdxBelow n f k l).getD i d =
      if k + i < n then f (k + i) (l.getD i d) else l.getD i d := by
  induction l generalizing k i with
  | nil => cases h
  | cons a rest ih =>
    cases i with
    | zero => simp [mapIdxBelow]
    | succ i =>
      have h' : i < rest.length := Nat.lt_of_succ_lt_succ (by simpa using h)
      have := ih (k + 1) i h'
      simp only [mapIdxBelow, List.getD_cons_succ, this]
      have harith : k + 1 + i = k + (i + 1) := by omega
      rw [harith]

lemma foldl_push_filter (c : α → Prop) [DecidablePred c] (g : α → β)
    (l : List α) (init : List β) :
    l.foldl (fun acc a => if c a then acc ++ [g a] else acc) init =
      init ++ (l.filter (fun a => decide (c a))).map g := by
  induction l generalizing init with
  | nil => simp
  | cons a rest ih =>
    rw [List.foldl_cons]
    by_cases h : c a
    · rw [if_pos h, ih]
      simp [List.filter_cons, h]
    · rw [if_neg h, ih]
      simp [List.filter_cons, h]

lemma inRangeLandmarks_eq_specCandidates (qsqrt : ℚ → ℚ)
    (sensor_range px py : ℚ) (landmarks : List SingleLandmark) :
    inRangeLandmarks qsqrt sensor_range px py landmarks =
      specCandidates qsqrt sensor_range px py landmarks := by
  unfold inRangeLandmarks specCandidates
  simpa using foldl_push_filter
    (fun lm => dist qsqrt px py lm.x_f lm.y_f ≤ sensor_range)
    (fun lm => ({ id := lm.id_i, x := lm.x_f, y := lm.y_f } : LandmarkObs))
    landmarks []

lemma foldl_congr_fun (f g : β → α → β) (l : List α) (init : β)
    (h : ∀ b a, a ∈ l → f b a = g b a) : l.foldl f init = l.foldl g init := by
  induction l generalizing init with
  | nil => rfl
  | cons a rest ih =>
    rw [List.foldl_cons, List.foldl_cons, h init a (List.mem_cons_self a rest)]
    exact ih _ fun b a' ha' => h b a' (List.mem_cons_of_mem a ha')

/-- The imperative weight loop computes exactly the spec's weight over the
spec's candidate set. -/
lemma updateWeightsOne_eq_spec (sinq cosq qsqrt : ℚ → ℚ) (qpi : ℚ)
    (qexp : ℚ → ℚ) (sensor_range : ℚ) (std_landmark : Fin 2 → ℚ)
    (observations : List LandmarkObs) (landmarks : List SingleLandmark)
    (p : Particle) :
    updateWeightsOne sinq cosq qsqrt qpi qexp sensor_range std_landmark
        observations landmarks p =
      { p with
        weight := specWeight sinq cosq qpi qexp std_landmark observations
          (specCandidates qsqrt sensor_range p.x p.y landmarks)
          p.x p.y p.theta } := by
  unfold updateWeightsOne specWeight
  dsimp only
  rw [inRangeLandmarks_eq_specCandidates]
  congr 1
  apply foldl_congr_fun
  intro w o _
  dsimp only
  rw [nearestPred, runMin_sentinel]
  cases hfa : firstArgmin
      (fun q => (p.x + cosq p.theta * o.x - sinq p.theta * o.y - q.x) *
          (p.x + cosq p.theta * o.x - sinq p.theta * o.y - q.x) +
        (p.y + sinq p.theta * o.x + cosq p.theta * o.y - q.y) *
          (p.y + sinq p.theta * o.x + cosq p.theta * o.y - q.y))
      (specCandidates qsqrt sensor_range p.x p.y landmarks) with
  | none => rfl
  | some q => rfl

/-- Claim C4: for every particle, `updateWeights` builds the candidate set as
exactly the map landmarks whose Euclidean distance to the particle is
`<= sensor_range` (inclusive boundary), resets the particle's weight to 1.0,
and makes it the product, over the observations in their given order, of the
Gaussian density of each observation rotated by θ then translated by the
particle position, evaluated against the nearest candidate (minimum squared
distance, first-encountered minimum on ties) as mean with `std_landmark` as
per-axis standard deviations. -/
theorem updateWeights_weight_spec (sinq cosq qsqrt : ℚ → ℚ) (qpi : ℚ)
    (qexp : ℚ → ℚ) (sensor_range : ℚ) (std_landmark : Fin 2 → ℚ)
    (observations : List LandmarkObs) (map_landmarks : Map)
    (pf : ParticleFilter) (i : Nat) (hi : i < pf.num_particles)
    (hlen : i < pf.particles.length) :
    (pf.updateWeights sinq cosq qsqrt qpi qexp sensor_range std_landmark
        observations map_landmarks).particles.getD i default =
      { pf.particles.getD i default with
        weight := specWeight sinq cosq qpi qexp std_landmark observations
          (specCandidates qsqrt sensor_range (pf.particles.getD i default).x
            (pf.particles.getD i default).y map_landmarks.landmark_list)
          (pf.particles.getD i default).x (pf.particles.getD i default).y
          (pf.particles.getD i default).theta } ∧
    inRangeLandmarks qsqrt sensor_range (pf.particles.getD i default).x
        (pf.particles.getD i default).y map_landmarks.landmark_list =
      specCandidates qsqrt sensor_range (pf.particles.getD i default).x
        (pf.particles.getD i default).y map_landmarks.landmark_list ∧
    ∀ (tx ty : ℚ) (q : LandmarkObs),
      firstArgmin (fun r => (tx - r.x) * (tx - r.x) + (ty - r.y) * (ty - r.y))
          (specCandidates qsqrt sensor_range (pf.particles.getD i default).x
            (pf.particles.getD i default).y map_landmarks.landmark_list) =
        some q →
      FirstMinAt (fun r => (tx - r.x) * (tx - r.x) + (ty - r.y) * (ty - r.y))
        (specCandidates qsqrt sensor_range (pf.particles.getD i default).x
          (pf.particles.getD i default).y map_landmarks.landmark_list) q := by
  refine ⟨?_, inRangeLandmarks_eq_specCandidates qsqrt sensor_range _ _ _,
    fun tx ty q h => firstArgmin_firstMinAt _ _ _ h⟩
  show (mapIdxBelow pf.num_particles _ 0 pf.particles).getD i default = _
  have hg := mapIdxBelow_getD pf.num_particles
    (fun _ p => updateWeightsOne sinq cosq qsqrt qpi qexp sensor_range
      std_landmark observations map_landmarks.landmark_list p)
    0 pf.particles i hlen default
  rw [Nat.zero_add] at hg
  rw [hg, if_pos hi, updateWeightsOne_eq_spec]

/-- Instantiation of C4: one particle at the origin with stale weight 5, one
in-range landmark at (1,0), one observation at (2,0); with abstract sin ≡ 0,
cos ≡ 1, sqrt = exp = identity and π = 1 the updated weight evaluates to
(1/2)·(−((2−1)²/2)) = −1/4, confirming the reset to 1 and the product form. -/
theorem updateWeights_weight_spec_witness :
    ((ParticleFilter.updateWeights
        ⟨1, [⟨0, 0, 0, 0, 5, [], [], []⟩], true⟩
        (fun _ => 0) (fun _ => 1) id 1 id 10 (fun _ => 1)
        [⟨-1, 2, 0⟩] ⟨[⟨7, 1, 0⟩]⟩).particles.getD 0 default).weight
      = -1/4 := by
  have h := (updateWeights_weight_spec (fun _ => 0) (fun _ => 1) id 1 id 10
    (fun _ => 1) [⟨-1, 2, 0⟩] ⟨[⟨7, 1, 0⟩]⟩
    ⟨1, [⟨0, 0, 0, 0, 5, [], [], []⟩], true⟩ 0
    (by decide) (by decide)).1
  rw [h]
  with_unfolding_all decide

/-- Claim C9: with an empty observations sequence, `updateWeights` sets every
particle's weight to exactly 1.0 (the reset value, with no likelihood factors
multiplied in), regardless of the sensor range and the map. -/
theorem updateWeights_empty_observations (sinq cosq qsqrt : ℚ → ℚ) (qpi : ℚ)
    (qexp : ℚ → ℚ) (sensor_range : ℚ) (std_landmark : Fin 2 → ℚ)
    (map_landmarks : Map) (pf : ParticleFilter)
    (h : pf.particles.length = pf.num_particles) :
    ∀ i, i < pf.num_particles →
      ((pf.updateWeights sinq cosq qsqrt qpi qexp sensor_range std_landmark
          [] map_landmarks).particles.getD i default).weight = 1 := by
  intro i hi
  have hlen : i < pf.particles.length := by rw [h]; exact hi
  show ((mapIdxBelow pf.num_particles _ 0 pf.particles).getD i default).weight = 1
  have hg := mapIdxBelow_getD pf.num_particles
    (fun _ p => updateWeightsOne sinq cosq qsqrt qpi qexp sensor_range
      std_landmark [] map_landmarks.landmark_list p)
    0 pf.particles i hlen default
  rw [Nat.zero_add] at hg
  rw [hg, if_pos hi, updateWeightsOne_eq_spec]
  rfl

/-- Instantiation of C9: a one-particle filter with stale weight 7 gets
weight exactly 1 from `updateWeights` with no observations. -/
theorem updateWeights_empty_observations_witness :
    ((ParticleFilter.updateWeights
        ⟨1, [⟨0, 3, 4, 1, 7, [], [], []⟩], true⟩
        id id id 1 id 50 (fun _ => 1) [] ⟨[⟨7, 1, 0⟩]⟩).particles.getD 0
        default).weight = 1 :=
  updateWeights_empty_observations id id id 1 id 50 (fun _ => 1) ⟨[⟨7, 1, 0⟩]⟩
    ⟨1, [⟨0, 3, 4, 1, 7, [], [], []⟩], true⟩ rfl 0 (by decide)

/-- Claim C5: for a particle with no map landmark within `sensor_range`, the
candidate set is empty, the nearest-match state keeps its defaults
(id −1, coordinates (0,0)), and the particle's weight is still the product of
the Gaussian factors, each evaluated against the origin — no error is
raised. -/
theorem updateWeights_no_candidates (sinq cosq qsqrt : ℚ → ℚ) (qpi : ℚ)
    (qexp : ℚ → ℚ) (sensor_range : ℚ) (std_landmark : Fin 2 → ℚ)
    (observations : List LandmarkObs) (map_landmarks : Map)
    (pf : ParticleFilter) (i : Nat) (hi : i < pf.num_particles)
    (hlen : i < pf.particles.length)
    (hout : ∀ lm ∈ map_landmarks.landmark_list,
      ¬ dist qsqrt (pf.particles.getD i default).x
          (pf.particles.getD i default).y lm.x_f lm.y_f ≤ sensor_range) :
    inRangeLandmarks qsqrt sensor_range (pf.particles.getD i default).x
        (pf.particles.getD i default).y map_landmarks.landmark_list = [] ∧
    nearestPred [] = (fun _ _ => ((none : Option ℚ), ((-1 : Int), (0 : ℚ), (0 : ℚ)))) ∧
    ((pf.updateWeights sinq cosq qsqrt qpi qexp sensor_range std_landmark
        observations map_landmarks).particles.getD i default).weight =
      observations.foldl (fun w o =>
        w * multiv_prob qpi qexp (std_landmark 0) (std_landmark 1)
          ((pf.particles.getD i default).x +
            cosq (pf.particles.getD i default).theta * o.x -
            sinq (pf.particles.getD i default).theta * o.y)
          ((pf.particles.getD i default).y +
            sinq (pf.particles.getD i default).theta * o.x +
            cosq (pf.particles.getD i default).theta * o.y)
          0 0) 1 := by
  have hcand : specCandidates qsqrt sensor_range
      (pf.particles.getD i default).x (pf.particles.getD i default).y
      map_landmarks.landmark_list = [] := by
    unfold specCandidates
    rw [List.filter_eq_nil_iff.mpr, List.map_nil]
    intro lm hlm
    simpa using hout lm hlm
  refine ⟨by rw [inRangeLandmarks_eq_specCandidates, hcand], rfl, ?_⟩
  show ((mapIdxBelow pf.num_particles _ 0 pf.particles).getD i default).weight = _
  have hg := mapIdxBelow_getD pf.num_particles
    (fun _ p => updateWeightsOne sinq cosq qsqrt qpi qexp sensor_range
      std_landmark observations map_landmarks.landmark_list p)
    0 pf.particles i hlen default
  rw [Nat.zero_add] at hg
  rw [hg, if_pos hi, updateWeightsOne_eq_spec, hcand]
  rfl

/-- Instantiation of C5: a particle at the origin with the only landmark at
distance 10000 (sensor range 10): the candidate set is empty and the weight
is the likelihood of the transformed observation (2,0) against the origin,
which evaluates to −1 with sin ≡ 0, cos ≡ 1, sqrt = exp = identity, π = 1. -/
theorem updateWeights_no_candidates_witness :
    inRangeLandmarks id 10 0 0 [⟨7, 100, 0⟩] = [] ∧
    ((ParticleFilter.updateWeights
        ⟨1, [⟨0, 0, 0, 0, 5, [], [], []⟩], true⟩
        (fun _ => 0) (fun _ => 1) id 1 id 10 (fun _ => 1)
        [⟨-1, 2, 0⟩] ⟨[⟨7, 100, 0⟩]⟩).particles.getD 0 default).weight = -1 := by
  have h := updateWeights_no_candidates (fun _ => 0) (fun _ => 1) id 1 id 10
    (fun _ => 1) [⟨-1, 2, 0⟩] ⟨[⟨7, 100, 0⟩]⟩
    ⟨1, [⟨0, 0, 0, 0, 5, [], [], []⟩], true⟩ 0 (by decide) (by decide)
    (by with_unfolding_all decide)
  refine ⟨?_, ?_⟩
  · exact h.1
  · rw [h.2.2]
    with_unfolding_all decide

/-- Claim C3: before noise injection, `prediction` updates a particle by the
CTRV closed form when |yaw_rate| > 1e-5, and otherwise by the straight-line
form with θ unchanged; in neither branch is θ wrapped to [−π, π] (θ becomes
exactly `θ + ω·Δt`, respectively exactly θ). Moreover `prediction` applies
exactly this step plus the noise draw to each particle below
`num_particles`. -/
theorem prediction_motion_model (sinq cosq : ℚ → ℚ)
    (delta_t velocity yaw_rate : ℚ) (p : Particle) :
    (|yaw_rate| > 1/100000 →
      motionStep sinq cosq delta_t velocity yaw_rate p =
        { p with
          x := p.x + (velocity / yaw_rate) *
            (sinq (p.theta + yaw_rate * delta_t) - sinq p.theta),
          y := p.y + (velocity / yaw_rate) *
            (cosq p.theta - cosq (p.theta + yaw_rate * delta_t)),
          theta := p.theta + yaw_rate * delta_t }) ∧
    (¬ |yaw_rate| > 1/100000 →
      motionStep sinq cosq delta_t velocity yaw_rate p =
        { p with
          x := p.x + velocity * delta_t * cosq p.theta,
          y := p.y + velocity * delta_t * sinq p.theta } ∧
      (motionStep sinq cosq delta_t velocity yaw_rate p).theta = p.theta) ∧
    ∀ (pf : ParticleFilter) (std_pos : Fin 3 → ℚ) (noise : Nat → ℚ × ℚ × ℚ)
      (i : Nat), i < pf.num_particles → i < pf.particles.length →
      (pf.prediction sinq cosq delta_t std_pos velocity yaw_rate
          noise).particles.getD i default =
        predictOne sinq cosq delta_t velocity yaw_rate (noise i)
          (pf.particles.getD i default) := by
  refine ⟨fun h => by rw [motionStep, if_pos h], fun h => ?_, ?_⟩
  · have he : motionStep sinq cosq delta_t velocity yaw_rate p =
        { p with
          x := p.x + velocity * delta_t * cosq p.theta,
          y := p.y + velocity * delta_t * sinq p.theta } := by
      rw [motionStep, if_neg h]
    exact ⟨he, by rw [he]⟩
  · intro pf std_pos noise i hi hlen
    show (mapIdxBelow pf.num_particles _ 0 pf.particles).getD i default = _
    have hg := mapIdxBelow_getD pf.num_particles
      (fun i p => predictOne sinq cosq delta_t velocity yaw_rate (noise i) p)
      0 pf.particles i hlen default
    rw [Nat.zero_add] at hg
    rw [hg, if_pos hi]

/-- Instantiation of C3 at yaw rates 1 (curved branch) and 0 (straight
branch), with sin = cos = identity: the curved step moves the particle at
(0,0,0) to (1,−1) with θ = 1, and the straight step leaves (0,0,0) fixed
since cos is replaced by the identity (id 0 = 0). -/
theorem prediction_motion_model_witness :
    motionStep id id 1 1 1 ⟨0, 0, 0, 0, 1, [], [], []⟩ =
      ⟨0, 1, -1, 1, 1, [], [], []⟩ ∧
    motionStep id id 1 1 0 ⟨0, 0, 0, 0, 1, [], [], []⟩ =
      ⟨0, 0, 0, 0, 1, [], [], []⟩ ∧
    (ParticleFilter.prediction ⟨1, [⟨0, 0, 0, 0, 1, [], [], []⟩], true⟩
        id id 1 (fun _ => 0) 1 1 (fun _ => (0, 0, 0))).particles.getD 0 default =
      predictOne id id 1 1 1 (0, 0, 0) ⟨0, 0, 0, 0, 1, [], [], []⟩ := by
  refine ⟨?_, ?_, ?_⟩
  · have h := (prediction_motion_model id id 1 1 1
      ⟨0, 0, 0, 0, 1, [], [], []⟩).1 (by with_unfolding_all decide)
    rw [h]
    with_unfolding_all decide
  · have h := ((prediction_motion_model id id 1 1 0
      ⟨0, 0, 0, 0, 1, [], [], []⟩).2.1 (by with_unfolding_all decide)).1
    rw [h]
    with_unfolding_all decide
  · exact (prediction_motion_model id id 1 1 1
      ⟨0, 0, 0, 0, 1, [], [], []⟩).2.2
      ⟨1, [⟨0, 0, 0, 0, 1, [], [], []⟩], true⟩ (fun _ => 0)
      (fun _ => (0, 0, 0)) 0 (by decide) (by decide)

/-- Claim C7: once the filter is initialized, any further `init` call, with
any arguments, is a no-op: the whole state — `num_particles`, the particle
sequence (hence every field of every particle), and the initialized flag —
is unchanged. -/
theorem init_noop_when_initialized (pf : ParticleFilter)
    (h : pf.is_init = true) (x y theta : ℚ) (std : Fin 3 → ℚ)
    (draws : Nat → ℚ × ℚ × ℚ) :
    pf.init x y theta std draws = pf ∧
    (pf.init x y theta std draws).num_particles = pf.num_particles ∧
    (pf.init x y theta std draws).particles = pf.particles ∧
    (pf.init x y theta std draws).is_init = pf.is_init := by
  have he : pf.init x y theta std draws = pf := by
    rw [ParticleFilter.init, if_pos h]
  exact ⟨he, by rw [he], by rw [he], by rw [he]⟩

/-- Instantiation of C7: a second `init` on an initialized three-particle
filter changes nothing. -/
theorem init_noop_when_initialized_witness :
    (ParticleFilter.init ⟨3, [⟨0, 1, 2, 3, 1, [], [], []⟩], true⟩
        4 5 6 (fun _ => 1) (fun i => (i, i, i))) =
      ⟨3, [⟨0, 1, 2, 3, 1, [], [], []⟩], true⟩ ∧
    (ParticleFilter.init ⟨3, [⟨0, 1, 2, 3, 1, [], [], []⟩], true⟩
        4 5 6 (fun _ => 1) (fun i => (i, i, i))).num_particles = 3 ∧
    (ParticleFilter.init ⟨3, [⟨0, 1, 2, 3, 1, [], [], []⟩], true⟩
        4 5 6 (fun _ => 1) (fun i => (i, i, i))).particles =
      [⟨0, 1, 2, 3, 1, [], [], []⟩] ∧
    (ParticleFilter.init ⟨3, [⟨0, 1, 2, 3, 1, [], [], []⟩], true⟩
        4 5 6 (fun _ => 1) (fun i => (i, i, i))).is_init = true :=
  init_noop_when_initialized ⟨3, [⟨0, 1, 2, 3, 1, [], [], []⟩], true⟩ rfl
    4 5 6 (fun _ => 1) (fun i => (i, i, i))

lemma wheelWhile_zero_weights (w : List ℚ) (n : Nat)
    (hw : ∀ i, w.getD i 0 = 0) (beta : ℚ) (hb : 0 < beta) :
    ∀ fuel index, wheelWhile w n fuel beta index = none := by
  intro fuel
  induction fuel with
  | zero =>
    intro index
    show (if beta > w.getD index 0 then none else _) = none
    rw [hw index, if_pos hb]
  | succ fuel ih =>
    intro index
    show (if beta > w.getD index 0 then
      wheelWhile w n fuel (beta - w.getD index 0) ((index + 1) % n) else _) = none
    rw [hw index, if_pos hb, sub_zero]
    exact ih ((index + 1) % n)

lemma wheelWhile_index_lt (w : List ℚ) (n : Nat) (hn : 0 < n) :
    ∀ (fuel : Nat) (beta : ℚ) (index : Nat), index < n →
      ∀ (beta' : ℚ) (index' : Nat),
        wheelWhile w n fuel beta index = some (beta', index') → index' < n := by
  intro fuel
  induction fuel with
  | zero =>
    intro beta index hidx beta' index' h
    rw [wheelWhile] at h
    split at h
    · cases h
    · cases h
      exact hidx
  | succ fuel ih =>
    intro beta index hidx beta' index' h
    rw [wheelWhile] at h
    split at h
    · exact ih _ _ (Nat.mod_lt _ hn) _ _ h
    · cases h
      exact hidx

lemma resampleLoop_mem (particles : List Particle) (w : List ℚ) (n : Nat)
    (fuel : Nat) (hn : 0 < n) (hnl : n ≤ particles.length) :
    ∀ (draws : List ℚ) (beta : ℚ) (index : Nat) (acc : List Particle),
      index < n → (∀ p ∈ acc, p ∈ particles) →
      ∀ (beta' : ℚ) (index' : Nat) (ps : List Particle),
        resampleLoop particles w n fuel draws beta index acc =
          some (beta', index', ps) →
        ∀ p ∈ ps, p ∈ particles := by
  intro draws
  induction draws with
  | nil =>
    intro beta index acc hidx hacc beta' index' ps h
    cases h
    exact hacc
  | cons d rest ih =>
    intro beta index acc hidx hacc beta' index' ps h
    rw [resampleLoop] at h
    cases hws : wheelWhile w n fuel (beta + 2 * d) index with
    | none => rw [hws] at h; cases h
    | some t =>
      obtain ⟨b1, i1⟩ := t
      rw [hws] at h
      have hi1 : i1 < n := wheelWhile_index_lt w n hn fuel _ index hidx b1 i1 hws
      refine ih b1 i1 (acc ++ [particles.getD i1 default]) hi1 ?_ beta' index' ps h
      intro p hp
      rcases List.mem_append.mp hp with hp | hp
      · exact hacc p hp
      · rcases List.mem_singleton.mp hp with rfl
        have hlt : i1 < particles.length := lt_of_lt_of_le hi1 hnl
        rw [List.getD_eq_getElem particles default hlt]
        exact List.getElem_mem hlt

lemma resampleLoop_length (particles : List Particle) (w : List ℚ) (n : Nat)
    (fuel : Nat) :
    ∀ (draws : List ℚ) (beta : ℚ) (index : Nat) (acc : List Particle)
      (beta' : ℚ) (index' : Nat) (ps : List Particle),
      resampleLoop particles w n fuel draws beta index acc =
        some (beta', index', ps) →
      ps.length = acc.length + draws.length := by
  intro draws
  induction draws with
  | nil =>
    intro beta index acc beta' index' ps h
    cases h
    simp
  | cons d rest ih =>
    intro beta index acc beta' index' ps h
    rw [resampleLoop] at h
    cases hws : wheelWhile w n fuel (beta + 2 * d) index with
    | none => rw [hws] at h; cases h
    | some t =>
      obtain ⟨b1, i1⟩ := t
      rw [hws] at h
      have := ih b1 i1 (acc ++ [particles.getD i1 default]) beta' index' ps h
      simp only [List.length_append, List.length_cons, List.length_nil] at this ⊢
      omega

/-- Claim C1 (divergence evidence): with every particle weight equal to 0
and a strictly positive first wheel draw — which `dist_w` produces with
probability 1 — `resample` returns `none` at every fuel value: the source's
inner `while (beta > w[index])` loop never terminates, because it subtracts
weight 0 from a positive `beta` forever. -/
theorem resample_all_zero_weights_diverges (pf : ParticleFilter)
    (index0 : Nat) (d : ℚ) (rest : List ℚ)
    (h0 : ∀ p ∈ pf.particles, p.weight = 0) (hd : 0 < d) :
    ∀ fuel, pf.resample index0 (d :: rest) fuel = none := by
  intro fuel
  have hw : ∀ i, ((List.range pf.num_particles).map
      (fun j => (pf.particles.getD j default).weight)).getD i 0 = 0 := by
    intro i
    by_cases hi : i < pf.num_particles
    · have hr : (List.range pf.num_particles).getD i 0 = i := by
        rw [List.getD_eq_getElem _ _ (by simpa using hi), List.getElem_range]
      rw [getD_map_of_lt _ _ i (by simpa using hi) 0 0, hr]
      by_cases hil : i < pf.particles.length
      · rw [List.getD_eq_getElem _ _ hil]
        exact h0 _ (List.getElem_mem hil)
      · rw [List.getD_eq_default _ _ (le_of_not_lt hil)]
        rfl
    · rw [List.getD_eq_default]
      rw [List.length_map, List.length_range]
      exact le_of_not_lt hi
  have hwheel := wheelWhile_zero_weights
    ((List.range pf.num_particles).map
      (fun j => (pf.particles.getD j default).weight))
    pf.num_particles hw (0 + 2 * d) (by linarith) fuel index0
  unfold ParticleFilter.resample
  dsimp only
  rw [resampleLoop, hwheel]

/-- Instantiation of C1's divergence at a concrete failing input: three
particles, all of weight 0, wheel draws 1/2, and a generous fuel bound of
1000 — the wheel still fails to finish. -/
theorem resample_all_zero_weights_diverges_witness :
    ParticleFilter.resample
      ⟨3, [⟨0, 0, 0, 0, 0, [], [], []⟩, ⟨1, 0, 0, 0, 0, [], [], []⟩,
           ⟨2, 0, 0, 0, 0, [], [], []⟩], true⟩
      0 [1/2, 1/2, 1/2] 1000 = none :=
  resample_all_zero_weights_diverges
    ⟨3, [⟨0, 0, 0, 0, 0, [], [], []⟩, ⟨1, 0, 0, 0, 0, [], [], []⟩,
         ⟨2, 0, 0, 0, 0, [], [], []⟩], true⟩
    0 (1/2) [1/2, 1/2] (by with_unfolding_all decide)
    (by with_unfolding_all decide) 1000

/-- Claim C10: whenever `resample` returns a new population, every particle
in it is a field-for-field value copy of — that is, equal to — some particle
of the input population; `resample` never synthesizes a new particle
state. -/
theorem resample_copies_input (pf : ParticleFilter) (index0 : Nat)
    (draws : List ℚ) (fuel : Nat) (pf' : ParticleFilter)
    (hpos : ∃ p ∈ pf.particles, 0 < p.weight)
    (hn : 0 < pf.num_particles)
    (hnl : pf.num_particles ≤ pf.particles.length)
    (hidx : index0 < pf.num_particles)
    (h : pf.resample index0 draws fuel = some pf') :
    ∀ p ∈ pf'.particles, p ∈ pf.particles := by
  unfold ParticleFilter.resample at h
  dsimp only at h
  cases hloop : resampleLoop pf.particles
      ((List.range pf.num_particles).map
        (fun j => (pf.particles.getD j default).weight))
      pf.num_particles fuel draws 0 index0 [] with
  | none => rw [hloop] at h; cases h
  | some t =>
    obtain ⟨beta', index', ps⟩ := t
    rw [hloop] at h
    injection h with h
    subst h
    intro p hp
    exact resampleLoop_mem pf.particles
      ((List.range pf.num_particles).map
        (fun j => (pf.particles.getD j default).weight))
      pf.num_particles fuel hn hnl draws 0 index0 [] hidx
      (by intro q hq; cases hq) beta' index' ps hloop p hp

/-- Instantiation of C10: resampling a one-particle population with weight 1
returns that same particle, which is indeed a member of the input. -/
theorem resample_copies_input_witness :
    (⟨0, 1, 2, 3, 1, [], [], []⟩ : Particle) ∈
      (⟨1, [⟨0, 1, 2, 3, 1, [], [], []⟩], true⟩ : ParticleFilter).particles :=
  resample_copies_input ⟨1, [⟨0, 1, 2, 3, 1, [], [], []⟩], true⟩ 0 [0] 1
    ⟨1, [⟨0, 1, 2, 3, 1, [], [], []⟩], true⟩
    ⟨⟨0, 1, 2, 3, 1, [], [], []⟩, by with_unfolding_all decide⟩
    (by decide) (by decide) (by decide)
    (by with_unfolding_all decide)
    ⟨0, 1, 2, 3, 1, [], [], []⟩ (by with_unfolding_all decide)

/-- Claim C2: `init` (from the freshly constructed filter) creates exactly
`num_particles = 100` particles, and each of `prediction`, `updateWeights`
and `resample` preserves `particles.length = num_particles`. -/
theorem population_invariant :
    (∀ (x y theta : ℚ) (std : Fin 3 → ℚ) (draws : Nat → ℚ × ℚ × ℚ),
      (ParticleFilter.fresh.init x y theta std draws).particles.length =
        (ParticleFilter.fresh.init x y theta std draws).num_particles ∧
      (ParticleFilter.fresh.init x y theta std draws).num_particles = 100) ∧
    (∀ (pf : ParticleFilter) (sinq cosq : ℚ → ℚ) (delta_t : ℚ)
      (std_pos : Fin 3 → ℚ) (velocity yaw_rate : ℚ)
      (noise : Nat → ℚ × ℚ × ℚ),
      pf.particles.length = pf.num_particles →
      (pf.prediction sinq cosq delta_t std_pos velocity yaw_rate
          noise).particles.length =
        (pf.prediction sinq cosq delta_t std_pos velocity yaw_rate
          noise).num_particles) ∧
    (∀ (pf : ParticleFilter) (sinq cosq qsqrt : ℚ → ℚ) (qpi : ℚ)
      (qexp : ℚ → ℚ) (sensor_range : ℚ) (std_landmark : Fin 2 → ℚ)
      (observations : List LandmarkObs) (map_landmarks : Map),
      pf.particles.length = pf.num_particles →
      (pf.updateWeights sinq cosq qsqrt qpi qexp sensor_range std_landmark
          observations map_landmarks).particles.length =
        (pf.updateWeights sinq cosq qsqrt qpi qexp sensor_range std_landmark
          observations map_landmarks).num_particles) ∧
    (∀ (pf : ParticleFilter) (index0 : Nat) (draws : List ℚ) (fuel : Nat)
      (pf' : ParticleFilter),
      pf.particles.length = pf.num_particles →
      draws.length = pf.num_particles →
      pf.resample index0 draws fuel = some pf' →
      pf'.particles.length = pf'.num_particles) := by
  refine ⟨?_, ?_, ?_, ?_⟩
  · intro x y theta std draws
    constructor
    · simp [ParticleFilter.init, ParticleFilter.fresh]
    · simp [ParticleFilter.init, ParticleFilter.fresh]
  · intro pf sinq cosq delta_t std_pos velocity yaw_rate noise h
    show (mapIdxBelow pf.num_particles _ 0 pf.particles).length = pf.num_particles
    rw [mapIdxBelow_length]
    exact h
  · intro pf sinq cosq qsqrt qpi qexp sensor_range std_landmark observations
      map_landmarks h
    show (mapIdxBelow pf.num_particles _ 0 pf.particles).length = pf.num_particles
    rw [mapIdxBelow_length]
    exact h
  · intro pf index0 draws fuel pf' hlen hdraws h
    unfold ParticleFilter.resample at h
    dsimp only at h
    cases hloop : resampleLoop pf.particles
        ((List.range pf.num_particles).map
          (fun j => (pf.particles.getD j default).weight))
        pf.num_particles fuel draws 0 index0 [] with
    | none => rw [hloop] at h; cases h
    | some t =>
      obtain ⟨beta', index', ps⟩ := t
      rw [hloop] at h
      injection h with h
      subst h
      have := resampleLoop_length pf.particles
        ((List.range pf.num_particles).map
          (fun j => (pf.particles.getD j default).weight))
        pf.num_particles fuel draws 0 index0 [] beta' index' ps hloop
      show ps.length = pf.num_particles
      rw [this, hdraws]
      simp

/-- Instantiation of C2 on concrete states: a fresh `init` yields 100
particles; prediction, weight update and a successful resample each keep a
one-particle population at its `num_particles`. -/
theorem population_invariant_witness :
    (ParticleFilter.fresh.init 1 2 3 (fun _ => 1)
        (fun i => (i, i, i))).particles.length = 100 ∧
    (ParticleFilter.prediction ⟨1, [⟨0, 1, 2, 3, 1, [], [], []⟩], true⟩
        id id 1 (fun _ => 0) 1 1 (fun _ => (0, 0, 0))).particles.length =
      (ParticleFilter.prediction ⟨1, [⟨0, 1, 2, 3, 1, [], [], []⟩], true⟩
        id id 1 (fun _ => 0) 1 1 (fun _ => (0, 0, 0))).num_particles ∧
    (ParticleFilter.updateWeights ⟨1, [⟨0, 1, 2, 3, 1, [], [], []⟩], true⟩
        id id id 1 id 50 (fun _ => 1) [] ⟨[]⟩).particles.length =
      (ParticleFilter.updateWeights ⟨1, [⟨0, 1, 2, 3, 1, [], [], []⟩], true⟩
        id id id 1 id 50 (fun _ => 1) [] ⟨[]⟩).num_particles ∧
    (⟨1, [⟨0, 1, 2, 3, 1, [], [], []⟩], true⟩ :
        ParticleFilter).particles.length =
      (⟨1, [⟨0, 1, 2, 3, 1, [], [], []⟩], true⟩ :
        ParticleFilter).num_particles := by
  refine ⟨?_, ?_, ?_, ?_⟩
  · exact ((population_invariant.1 1 2 3 (fun _ => 1)
      (fun i => (i, i, i))).1).trans
      ((population_invariant.1 1 2 3 (fun _ => 1) (fun i => (i, i, i))).2)
  · exact population_invariant.2.1 ⟨1, [⟨0, 1, 2, 3, 1, [], [], []⟩], true⟩
      id id 1 (fun _ => 0) 1 1 (fun _ => (0, 0, 0)) rfl
  · exact population_invariant.2.2.1 ⟨1, [⟨0, 1, 2, 3, 1, [], [], []⟩], true⟩
      id id id 1 id 50 (fun _ => 1) [] ⟨[]⟩ rfl
  · exact population_invariant.2.2.2 ⟨1, [⟨0, 1, 2, 3, 1, [], [], []⟩], true⟩
      0 [0] 1 ⟨1, [⟨0, 1, 2, 3, 1, [], [], []⟩], true⟩ rfl rfl
      (by with_unfolding_all decide)

lemma join_map_space (toText : α → List Char) (v : List α) (hv : v ≠ []) :
    List.join (v.map (fun x => toText x ++ [' '])) =
      spaceSeparated toText v ++ [' '] := by
  induction v with
  | nil => exact absurd rfl hv
  | cons x rest ih =>
    cases rest with
    | nil => simp [spaceSeparated]
    | cons y t =>
      have hj : List.join (List.map (fun z => toText z ++ [' ']) (x :: y :: t)) =
          (toText x ++ [' ']) ++
            List.join (List.map (fun z => toText z ++ [' ']) (y :: t)) := rfl
      rw [hj, ih (List.cons_ne_nil y t)]
      show toText x ++ [' '] ++ (spaceSeparated toText (y :: t) ++ [' ']) =
        (toText x ++ ' ' :: spaceSeparated toText (y :: t)) ++ [' ']
      simp

lemma renderSeq_eq_spaceSeparated (toText : α → List Char) (v : List α)
    (hv : v ≠ []) : renderSeq toText v = spaceSeparated toText v := by
  rw [renderSeq, join_map_space toText v hv, List.dropLast_concat]

/-- Claim C8: for nonempty stored sequences, `getAssociations` and
`getSenseCoord` render them as text separated by single spaces with the
trailing separator trimmed, and after `SetAssociations(particle, a, sx, sy)`
the rendered outputs correspond exactly to the sequences `a`, `sx`, `sy`
just attached. -/
theorem associations_render (toTextInt : Int → List Char)
    (toTextQ : ℚ → List Char) (particle : Particle) (a : List Int)
    (sx sy : List ℚ) (ha : a ≠ []) (hx : sx ≠ []) (hy : sy ≠ [])
    (hpa : particle.associations ≠ []) :
    ParticleFilter.getAssociations toTextInt particle =
      spaceSeparated toTextInt particle.associations ∧
    ParticleFilter.getAssociations toTextInt
        (ParticleFilter.SetAssociations particle a sx sy) =
      spaceSeparated toTextInt a ∧
    ParticleFilter.getSenseCoord toTextQ
        (ParticleFilter.SetAssociations particle a sx sy) ['X'] =
      spaceSeparated toTextQ sx ∧
    ParticleFilter.getSenseCoord toTextQ
        (ParticleFilter.SetAssociations particle a sx sy) ['Y'] =
      spaceSeparated toTextQ sy := by
  refine ⟨renderSeq_eq_spaceSeparated toTextInt _ hpa, ?_, ?_, ?_⟩
  · exact renderSeq_eq_spaceSeparated toTextInt _ ha
  · show renderSeq toTextQ (if (['X'] : List Char) = ['X'] then sx else sy) =
      spaceSeparated toTextQ sx
    rw [if_pos rfl]
    exact renderSeq_eq_spaceSeparated toTextQ _ hx
  · show renderSeq toTextQ (if (['Y'] : List Char) = ['X'] then sx else sy) =
      spaceSeparated toTextQ sy
    rw [if_neg (by decide)]
    exact renderSeq_eq_spaceSeparated toTextQ _ hy

/-- Instantiation of C8 with concrete sequences and concrete one-character
renderings of the elements. -/
theorem associations_render_witness :
    ParticleFilter.getAssociations (fun _ => ['i'])
        ⟨0, 0, 0, 0, 1, [5], [1], [2]⟩ = ['i'] ∧
    ParticleFilter.getAssociations (fun _ => ['i'])
        (ParticleFilter.SetAssociations ⟨0, 0, 0, 0, 1, [5], [1], [2]⟩
          [1, 2] [3] [4, 5]) = ['i', ' ', 'i'] ∧
    ParticleFilter.getSenseCoord (fun _ => ['q'])
        (ParticleFilter.SetAssociations ⟨0, 0, 0, 0, 1, [5], [1], [2]⟩
          [1, 2] [3] [4, 5]) ['X'] = ['q'] ∧
    ParticleFilter.getSenseCoord (fun _ => ['q'])
        (ParticleFilter.SetAssociations ⟨0, 0, 0, 0, 1, [5], [1], [2]⟩
          [1, 2] [3] [4, 5]) ['Y'] = ['q', ' ', 'q'] := by
  have h := associations_render (fun _ => ['i']) (fun _ => ['q'])
    ⟨0, 0, 0, 0, 1, [5], [1], [2]⟩ [1, 2] [3] [4, 5]
    (by decide) (by decide) (by decide) (by decide)
  refine ⟨h.1.trans (by decide), h.2.1.trans (by decide),
    h.2.2.1.trans (by decide), h.2.2.2.trans (by decide)⟩
